import Mathlib

/-!
Verification of the conversational requirements-gathering client
(`src/App.tsx`): a shallow embedding of its keyword knowledge base, text
analyzer, requirements extractor, project-context update, session-phase
controller, per-turn control flow around the remote response gateway, and
document renderer, together with theorems settling the specified claims.

Strings are modelled by Lean `String` (a list of characters); the
JavaScript string operations used by the code (`includes`, `toLowerCase`,
`trim`, `split(/[.!?]+/)`, `charAt(0).toUpperCase()`,
`replace(/([A-Z])/g, ' $1')`, `join(', ')`) are embedded as executable
functions on character lists.  JavaScript objects holding the requirements
record are modelled as association lists in insertion order, matching
`Object.keys` / `Object.entries` enumeration; a JavaScript
`string | null` value is `Option String` (`none` = `null`).
-/

/-- JS `s.startsWith(pat)` on character lists: `pat` is a leading block of the
second list. -/
def charsLeadsWith : List Char → List Char → Bool
  | [], _ => true
  | _ :: _, [] => false
  | a :: ps, b :: ss => a == b && charsLeadsWith ps ss

/-- JS `s.includes(pat)` on character lists: `pat` occurs contiguously. -/
def charsContains (pat : List Char) : List Char → Bool
  | [] => pat.isEmpty
  | c :: cs => charsLeadsWith pat (c :: cs) || charsContains pat cs

/-- JS `s.includes(pat)`: substring test. -/
def strContains (s pat : String) : Bool :=
  charsContains pat.data s.data

/-- JS `s.toLowerCase()` (character-wise, as used on the ASCII keyword
tables). -/
def strLower (s : String) : String :=
  String.mk (s.data.map Char.toLower)

/-- JS `s.trim()`: drop whitespace from both ends. -/
def strTrim (s : String) : String :=
  String.mk (((s.data.dropWhile Char.isWhitespace).reverse.dropWhile Char.isWhitespace).reverse)

/-- Splitter for JS `text.split(/[.!?]+/)`: `cur` is the reversed current
chunk, `inDelim` records that the previous character was a delimiter (so a
run of delimiters produces a single split). -/
def splitPunctAux (cur : List Char) (inDelim : Bool) : List Char → List String
  | [] => [String.mk cur.reverse]
  | c :: cs =>
    if c == '.' || c == '!' || c == '?' then
      if inDelim then splitPunctAux [] true cs
      else String.mk cur.reverse :: splitPunctAux [] true cs
    else splitPunctAux (c :: cur) false cs

/-- JS `text.split(/[.!?]+/)`. -/
def splitSentences (s : String) : List String :=
  splitPunctAux [] false s.data

/-- The `aiKnowledge.projectTypes` table of `App.tsx` (only the `keywords`
lists matter to the analyzer), in source enumeration order. -/
def projectTypes : List (String × List String) :=
  [("web application", ["website", "web app", "portal", "dashboard", "cms", "e-commerce", "saas"]),
   ("mobile application", ["mobile app", "ios", "android", "smartphone", "tablet", "native", "hybrid"]),
   ("api/microservice", ["api", "rest", "graphql", "microservice", "backend", "integration"]),
   ("data/analytics", ["data", "analytics", "ml", "ai", "dashboard", "reporting", "etl"])]

/-- The `aiKnowledge.contextClues` table of `App.tsx`, in source enumeration
order. -/
def contextCluesKB : List (String × List String) :=
  [("urgency", ["asap", "urgent", "deadline", "launch date", "time-sensitive"]),
   ("budget", ["budget", "cost", "expensive", "cheap", "funding", "investment"]),
   ("scale", ["users", "concurrent", "traffic", "load", "scalability", "growth"]),
   ("compliance", ["gdpr", "hipaa", "pci", "compliance", "regulation", "security"]),
   ("integration", ["integrate", "connect", "api", "third-party", "existing system"])]

/-- The hard-coded `techTerms` list inside `analyzeUserInput`. -/
def techTermsKB : List String :=
  ["database", "cloud", "aws", "azure", "docker", "kubernetes", "react", "node.js", "python", "java"]

/-- A context-clue record `{category, keyword, context}`. -/
structure ContextClue where
  category : String
  keyword : String
  context : String
deriving DecidableEq

/-- The classification produced by `analyzeUserInput` (the always-empty
`detectedNeeds` and `businessNeeds` arrays are omitted; nothing reads
them). -/
structure Analysis where
  projectType : Option String
  contextClues : List ContextClue
  technicalTerms : List String
deriving DecidableEq

/-- `extractContext` of `App.tsx`: first sentence (splitting on `[.!?]+`)
whose lower-casing contains the keyword, else the empty string. -/
def extractContext (text : String) (keyword : String) : String :=
  ((splitSentences text).find? (fun s => strContains (strLower s) keyword)).getD ""

/-- One project-type table row matches when any of its keywords occurs in
the lower-cased input. -/
def matchesCategory (low : String) (p : String × List String) : Bool :=
  p.2.any (fun kw => strContains low kw)

/-- The project-type detection pass of `analyzeUserInput`: each matching
category overwrites `analysis.projectType` in enumeration order. -/
def detectProjectType (low : String) : Option String :=
  projectTypes.foldl (fun acc p => if matchesCategory low p then some p.1 else acc) none

/-- `analyzeUserInput` of `App.tsx`. -/
def analyzeUserInput (input : String) : Analysis :=
  let lowercaseInput := strLower input
  { projectType := detectProjectType lowercaseInput
    contextClues :=
      contextCluesKB.foldl
        (fun acc p =>
          acc ++ (p.2.filter (fun kw => strContains lowercaseInput kw)).map
            (fun kw => ⟨p.1, kw, extractContext input kw⟩)) []
    technicalTerms := techTermsKB.filter (fun t => strContains lowercaseInput t) }

/-- JS truthiness of a `string | null` value: `null`, `undefined` and the
empty string are falsy. -/
def optTruthy : Option String → Bool
  | none => false
  | some s => !(s == "")

/-- The `projectContext` React state: `projectType` is a `string | null`
(initially the empty string, possibly `null` after an update), while the
`technicalTerms` and `contextClues` keys are absent (`none`) until the first
update writes them. -/
structure ProjectContext where
  projectType : Option String
  technicalTerms : Option (List String)
  contextClues : Option (List ContextClue)
deriving DecidableEq

/-- Lines 147–150 of `App.tsx`: `{ ...projectContext, ...analysis }` (every
`ProjectContext` field is also an `Analysis` field, so the spread replaces
them all), then the guard restoring a freshly detected type when none was
known. -/
def updateContext (ctx : ProjectContext) (a : Analysis) : ProjectContext :=
  let updated : ProjectContext :=
    { projectType := a.projectType
      technicalTerms := some a.technicalTerms
      contextClues := some a.contextClues }
  if optTruthy a.projectType && !optTruthy ctx.projectType then
    { updated with projectType := a.projectType }
  else updated

/-- The requirements record: a JavaScript object, i.e. an association list in
insertion order. -/
abbrev Reqs : Type := List (String × String)

/-- `Object.keys` of the record, in insertion order. -/
def reqKeys (r : Reqs) : List String :=
  r.map Prod.fst

/-- Read a field of the record (`undefined` when absent). -/
def getVal (r : Reqs) (k : String) : Option String :=
  (r.find? (fun p => p.1 == k)).map Prod.snd

/-- JS property assignment `r[k] = v`: overwrite in place when the key
exists, otherwise append a new key in insertion order. -/
def setKey (r : Reqs) (k v : String) : Reqs :=
  if r.any (fun p => p.1 == k) then
    r.map (fun p => if p.1 == k then (k, v) else p)
  else r ++ [(k, v)]

/-- `extractRequirementsFromInput` of `App.tsx`: spread-copy of the current
record, then the four substring heuristics (target users, features
accumulation, timeline, budget). -/
def extractRequirementsFromInput (input : String) (_analysis : Analysis) (currentReqs : Reqs) : Reqs :=
  let low := strLower input
  let r1 :=
    if strContains low "user" || strContains low "customer" then
      setKey currentReqs "targetUsers" input
    else currentReqs
  let r2 :=
    if strContains low "feature" || strContains low "function" then
      setKey r1 "features" (((getVal r1 "features").getD "") ++ " " ++ input)
    else r1
  let r3 :=
    if ["week", "month", "year", "deadline", "launch"].any (fun w => strContains low w) then
      setKey r2 "timeline" input
    else r2
  let r4 :=
    if strContains input "$" || strContains low "budget" || strContains low "cost" then
      setKey r3 "budget" input
    else r3
  r4

/-- The four session phases of the controller. -/
inductive SessionPhase where
  | introduction
  | discovery
  | clarification
  | summary
deriving DecidableEq

/-- Position of a phase in the order introduction < discovery <
clarification < summary. -/
def phaseIdx : SessionPhase → Nat
  | .introduction => 0
  | .discovery => 1
  | .clarification => 2
  | .summary => 3

/-- Rendering of a phase value (a JS string literal). -/
def phaseToString : SessionPhase → String
  | .introduction => "introduction"
  | .discovery => "discovery"
  | .clarification => "clarification"
  | .summary => "summary"

/-- Lines 177–182 of `App.tsx`: the per-turn phase advance, evaluated on the
updated context and updated requirements of the turn. -/
def advancePhase (phase : SessionPhase) (updatedContext : ProjectContext)
    (updatedRequirements : Reqs) : SessionPhase :=
  if phase = .introduction ∧ optTruthy updatedContext.projectType then .discovery
  else if phase = .discovery ∧ (reqKeys updatedRequirements).length > 5 then .clarification
  else phase

/-- The three pieces of React state the conversation logic reads and
writes. -/
structure AppState where
  requirements : Reqs
  projectContext : ProjectContext
  sessionPhase : SessionPhase
deriving DecidableEq

/-- Initial React state: `requirements = {projectType: ''}`,
`projectContext = {projectType: ''}`, phase `introduction`. -/
def initState : AppState :=
  { requirements := [("projectType", "")]
    projectContext := { projectType := some "", technicalTerms := none, contextClues := none }
    sessionPhase := .introduction }

/-- The JSON body posted to `/api/generate-response`. -/
structure Payload where
  userInput : String
  projectContext : ProjectContext
  sessionPhase : SessionPhase
  requirements : Reqs
deriving DecidableEq

/-- The request body built at lines 158–163 of `App.tsx`: the latest input,
the updated context, and the phase and requirements React state as they
stand before the turn's extraction. -/
def requestPayload (s : AppState) (input : String) : Payload :=
  { userInput := input
    projectContext := updateContext s.projectContext (analyzeUserInput input)
    sessionPhase := s.sessionPhase
    requirements := s.requirements }

/-- Outcome of the `fetch` call: the promise rejects (network error), or an
HTTP response arrives with its `ok` flag and the `data.response` text of its
body. -/
inductive FetchOutcome where
  | netError
  | http (ok : Bool) (body : String)

/-- An outcome the code treats as a failure: rejected fetch, or a
non-success status (`!response.ok` throws into the catch). -/
def isFailureOutcome : FetchOutcome → Bool
  | .netError => true
  | .http ok _ => !ok

/-- The fallback text returned from the catch block of
`generateAIResponse`. -/
def fallbackMessage : String :=
  "I'm having trouble connecting to my brain right now. Please try again in a moment."

/-- What one turn returns: the assistant text shown to the UI and the React
state after the turn. -/
structure TurnResult where
  response : String
  state : AppState

/-- `generateAIResponse` of `App.tsx`, with the network modelled as a
function from the posted payload to a fetch outcome: analyze the input,
build the updated context, post the payload; on success run the extractor,
store the new requirements and context, advance the phase and return the
body; on any failure return the fallback text, leaving all state as it
was. -/
def runTurn (s : AppState) (input : String) (gw : Payload → FetchOutcome) : TurnResult :=
  let analysis := analyzeUserInput input
  let updatedContext := updateContext s.projectContext analysis
  match gw (requestPayload s input) with
  | .netError => ⟨fallbackMessage, s⟩
  | .http ok body =>
    if ok then
      let updatedRequirements := extractRequirementsFromInput input analysis s.requirements
      let newPhase := advancePhase s.sessionPhase updatedContext updatedRequirements
      ⟨body, ⟨updatedRequirements, updatedContext, newPhase⟩⟩
    else ⟨fallbackMessage, s⟩

/-- One user turn: the utterance together with the network behaviour for
that turn. -/
abbrev Turn : Type := String × (Payload → FetchOutcome)

/-- State transition of one turn. -/
def stepState (s : AppState) (t : Turn) : AppState :=
  (runTurn s t.1 t.2).state

/-- Run a session: fold the turns over a starting state. -/
def runSession (s : AppState) (ts : List Turn) : AppState :=
  ts.foldl stepState s

/-- The sequence of `sessionPhase` values observed over a session: the phase
before the first turn and after each turn. -/
def phaseTrace (s : AppState) : List Turn → List SessionPhase
  | [] => [s.sessionPhase]
  | t :: ts => s.sessionPhase :: phaseTrace (stepState s t) ts

/-- JS template interpolation of a `string | null` value (`null` renders as
the text `null`). -/
def optToDisplay : Option String → String
  | none => "null"
  | some s => s

/-- JS `key.charAt(0).toUpperCase() + key.slice(1)`. -/
def capitalizeFirst (s : String) : String :=
  match s.data with
  | [] => ""
  | c :: rest => String.mk (c.toUpper :: rest)

/-- JS `key.charAt(0).toUpperCase() + key.slice(1).replace(/([A-Z])/g, ' $1')`:
capitalize the first character and put a space before every later upper-case
character. -/
def humanizeKey (k : String) : String :=
  match k.data with
  | [] => ""
  | c :: rest =>
    String.mk (c.toUpper :: rest.foldr (fun ch acc => if ch.isUpper then ' ' :: ch :: acc else ch :: acc) [])

/-- JS `array.join(', ')`. -/
def joinComma (l : List String) : String :=
  String.intercalate ", " l

/-- `generateRequirementsDocument` of `App.tsx`, with the wall-clock date
string as an explicit argument.  One `###` section per requirement entry
whose value is a non-empty string with non-empty trim; a technical-terms
section when the context records a non-empty list; the context-clues line
shows `None detected` only when the key is absent. -/
def generateRequirementsDocument (ctx : ProjectContext) (reqs : Reqs)
    (phase : SessionPhase) (dateStr : String) : String :=
  let projectName := if optTruthy ctx.projectType then (ctx.projectType.getD "") else "Software Project"
  let header :=
    "# " ++ capitalizeFirst projectName ++ " Requirements Document\n\n"
      ++ "**Generated by AI Requirements Assistant**\n"
      ++ "**Date:** " ++ dateStr ++ "\n\n"
  let execSummary :=
    "## Executive Summary\n"
      ++ "This document outlines the requirements for a " ++ optToDisplay ctx.projectType
      ++ " based on intelligent analysis of stakeholder conversations.\n\n"
  let reqSections :=
    if (reqKeys reqs).length > 0 then
      "## Gathered Requirements\n\n"
        ++ String.join (reqs.map (fun p =>
            if p.2 != "" && strTrim p.2 != "" then
              "### " ++ humanizeKey p.1 ++ "\n" ++ strTrim p.2 ++ "\n\n"
            else ""))
    else ""
  let techSection :=
    match ctx.technicalTerms with
    | some l =>
      if l.length > 0 then
        "## Technical Considerations\n" ++ "Mentioned technologies: " ++ joinComma l ++ "\n\n"
      else ""
    | none => ""
  let aiSummary :=
    "## AI Analysis Summary\n"
      ++ "- **Project Type Detected:** "
      ++ (if optTruthy ctx.projectType then (ctx.projectType.getD "") else "Not determined") ++ "\n"
      ++ "- **Key Context Clues:** "
      ++ (match ctx.contextClues with
          | some l => joinComma (l.map (fun c => c.category))
          | none => "None detected") ++ "\n"
      ++ "- **Conversation Phase:** " ++ phaseToString phase ++ "\n\n"
  let nextSteps :=
    "## Next Steps\n"
      ++ "1. Review and validate the gathered requirements\n"
      ++ "2. Prioritize features based on business value\n"
      ++ "3. Create detailed technical specifications\n"
      ++ "4. Develop project timeline and resource allocation\n"
  header ++ execSummary ++ reqSections ++ techSection ++ aiSummary ++ nextSteps

/-- Restatement of the spec of the detection pass in its own words: the type
of the last project-type category in enumeration order one of whose keywords
occurs in the lower-cased utterance, if any. -/
def specLastMatchingType (input : String) : Option String :=
  ((projectTypes.filter (fun p => matchesCategory (strLower input) p)).map Prod.fst).getLast?

/-- Invariant of the requirements record over a session: the key
`projectType` is present and the key list has no duplicates. -/
def reqInvariant (s : AppState) : Prop :=
  "projectType" ∈ reqKeys s.requirements ∧ (reqKeys s.requirements).Nodup

/-- A gateway that always answers successfully, for concrete runs. -/
def okGateway : Payload → FetchOutcome :=
  fun _ => .http true "ok"

/-!
Helper lemmas about the string and record operations.
-/

theorem charsLeadsWith_append (pat s t : List Char) (h : charsLeadsWith pat s = true) :
    charsLeadsWith pat (s ++ t) = true := by
  induction pat generalizing s with
  | nil => rfl
  | cons a ps ih =>
    cases s with
    | nil => simp [charsLeadsWith] at h
    | cons b ss =>
      simp only [List.cons_append, charsLeadsWith, Bool.and_eq_true] at h ⊢
      exact ⟨h.1, ih ss h.2⟩

theorem charsContains_of_empty (pat : List Char) (h : pat.isEmpty = true) (l : List Char) :
    charsContains pat l = true := by
  have hpat : pat = [] := by cases pat <;> simp_all [List.isEmpty]
  subst hpat
  cases l with
  | nil => rfl
  | cons c cs => rfl

theorem charsContains_append_left (pat a b : List Char) (h : charsContains pat a = true) :
    charsContains pat (a ++ b) = true := by
  induction a with
  | nil => exact charsContains_of_empty pat h b
  | cons c cs ih =>
    simp only [charsContains, Bool.or_eq_true] at h
    simp only [List.cons_append, charsContains, Bool.or_eq_true]
    rcases h with h | h
    · exact Or.inl (charsLeadsWith_append pat (c :: cs) b h)
    · exact Or.inr (ih h)

theorem charsContains_append_right (pat a b : List Char) (h : charsContains pat b = true) :
    charsContains pat (a ++ b) = true := by
  induction a with
  | nil => simpa using h
  | cons c cs ih =>
    simp only [List.cons_append, charsContains, Bool.or_eq_true]
    exact Or.inr ih

theorem strContains_append_left (a b pat : String) (h : strContains a pat = true) :
    strContains (a ++ b) pat = true :=
  charsContains_append_left pat.data a.data b.data h

theorem strContains_append_right (a b pat : String) (h : strContains b pat = true) :
    strContains (a ++ b) pat = true :=
  charsContains_append_right pat.data a.data b.data h

theorem reqKeys_map_over (r : Reqs) (k v : String) :
    reqKeys (r.map (fun p => if p.1 == k then (k, v) else p)) = reqKeys r := by
  simp only [reqKeys, List.map_map]
  apply List.map_congr_left
  intro p _
  simp only [Function.comp_apply]
  split
  · next h => exact (eq_of_beq h).symm
  · rfl

theorem mem_reqKeys_setKey (r : Reqs) (k v key : String) (h : key ∈ reqKeys r) :
    key ∈ reqKeys (setKey r k v) := by
  unfold setKey
  split
  · rw [reqKeys_map_over]; exact h
  · simp only [reqKeys, List.map_append]
    exact List.mem_append_left _ h

theorem nodup_reqKeys_setKey (r : Reqs) (k v : String) (h : (reqKeys r).Nodup) :
    (reqKeys (setKey r k v)).Nodup := by
  unfold setKey
  split
  · rw [reqKeys_map_over]; exact h
  · next hany =>
    have hk : k ∉ reqKeys r := by
      intro hmem
      rcases List.mem_map.mp hmem with ⟨p, hp, hpk⟩
      exact hany (List.any_eq_true.mpr ⟨p, hp, by simp [hpk]⟩)
    simp only [reqKeys, List.map_append, List.map_cons, List.map_nil]
    rw [List.nodup_append]
    refine ⟨h, List.nodup_singleton _, ?_⟩
    intro x hx hx2
    simp only [List.mem_singleton] at hx2
    subst hx2
    exact hk hx

theorem mem_reqKeys_setKey_ite (c : Bool) (r : Reqs) (k v key : String) (h : key ∈ reqKeys r) :
    key ∈ reqKeys (if c then setKey r k v else r) := by
  cases c
  · simpa using h
  · simpa using mem_reqKeys_setKey r k v key h

theorem nodup_reqKeys_setKey_ite (c : Bool) (r : Reqs) (k v : String) (h : (reqKeys r).Nodup) :
    (reqKeys (if c then setKey r k v else r)).Nodup := by
  cases c
  · simpa using h
  · simpa using nodup_reqKeys_setKey r k v h

theorem extract_keys_mono (input : String) (a : Analysis) (r : Reqs) (key : String)
    (h : key ∈ reqKeys r) :
    key ∈ reqKeys (extractRequirementsFromInput input a r) := by
  simp only [extractRequirementsFromInput]
  apply mem_reqKeys_setKey_ite
  apply mem_reqKeys_setKey_ite
  apply mem_reqKeys_setKey_ite
  apply mem_reqKeys_setKey_ite
  exact h

theorem extract_keys_nodup (input : String) (a : Analysis) (r : Reqs)
    (h : (reqKeys r).Nodup) :
    (reqKeys (extractRequirementsFromInput input a r)).Nodup := by
  simp only [extractRequirementsFromInput]
  apply nodup_reqKeys_setKey_ite
  apply nodup_reqKeys_setKey_ite
  apply nodup_reqKeys_setKey_ite
  apply nodup_reqKeys_setKey_ite
  exact h


theorem phaseIdx_advancePhase (phase : SessionPhase) (ctx : ProjectContext) (reqs : Reqs) :
    phaseIdx phase ≤ phaseIdx (advancePhase phase ctx reqs) := by
  unfold advancePhase
  split
  · next h => rw [h.1]; decide
  · split
    · next h => rw [h.1]; decide
    · exact Nat.le_refl _

theorem phaseIdx_stepState (s : AppState) (t : Turn) :
    phaseIdx s.sessionPhase ≤ phaseIdx (stepState s t).sessionPhase := by
  unfold stepState runTurn
  cases hgw : t.2 (requestPayload s t.1) with
  | netError => simp only [hgw]; exact Nat.le_refl _
  | http ok body =>
    cases ok
    · simp only [hgw]; exact Nat.le_refl _
    · simp only [hgw, if_true]
      exact phaseIdx_advancePhase s.sessionPhase _ _

theorem phaseTrace_head (s : AppState) (ts : List Turn) :
    (phaseTrace s ts).head? = some s.sessionPhase := by
  cases ts <;> rfl

theorem phaseTrace_chain (s : AppState) (ts : List Turn) :
    List.Chain' (fun a b => phaseIdx a ≤ phaseIdx b) (phaseTrace s ts) := by
  induction ts generalizing s with
  | nil => exact List.chain'_singleton _
  | cons t ts ih =>
    rw [phaseTrace, List.chain'_cons']
    constructor
    · intro y hy
      rw [phaseTrace_head] at hy
      have hy2 : y = (stepState s t).sessionPhase := by
        simpa using hy.symm
      rw [hy2]
      exact phaseIdx_stepState s t
    · exact ih _

theorem foldl_detect_eq {α β : Type} (P : α → Bool) (f : α → β) (l : List α) :
    ∀ acc : Option β,
      l.foldl (fun a p => if P p then some (f p) else a) acc
        = ((l.filter P).map (fun p => some (f p))).getLastD acc := by
  induction l with
  | nil => intro acc; rfl
  | cons p l ih =>
    intro acc
    rw [List.foldl_cons, ih]
    by_cases h : P p = true
    · rw [if_pos h, List.filter_cons_of_pos h, List.map_cons, List.getLastD_cons]
    · rw [if_neg h, List.filter_cons_of_neg h]

theorem getLastD_map_some {β : Type} (m : List β) :
    (m.map some).getLastD none = m.getLast? := by
  rw [List.getLastD_eq_getLast?, List.getLast?_map]
  cases m.getLast? <;> rfl

theorem detectProjectType_eq_lastMatch (low : String) :
    detectProjectType low
      = ((projectTypes.filter (fun p => matchesCategory low p)).map Prod.fst).getLast? := by
  calc detectProjectType low
      = ((projectTypes.filter (fun p => matchesCategory low p)).map
          (fun p => some p.1)).getLastD none :=
        foldl_detect_eq (fun p => matchesCategory low p)
          (fun p : String × List String => p.1) projectTypes none
    _ = (((projectTypes.filter (fun p => matchesCategory low p)).map Prod.fst).map
          some).getLastD none := by rw [List.map_map]; rfl
    _ = ((projectTypes.filter (fun p => matchesCategory low p)).map Prod.fst).getLast? :=
        getLastD_map_some _

theorem reqInvariant_step (s : AppState) (t : Turn) (h : reqInvariant s) :
    reqInvariant (stepState s t) := by
  unfold stepState runTurn
  cases hgw : t.2 (requestPayload s t.1) with
  | netError => exact h
  | http ok body =>
    cases ok
    · exact h
    · exact ⟨extract_keys_mono t.1 (analyzeUserInput t.1) s.requirements "projectType" h.1,
        extract_keys_nodup t.1 (analyzeUserInput t.1) s.requirements h.2⟩

theorem reqInvariant_runSession (ts : List Turn) :
    ∀ s : AppState, reqInvariant s → reqInvariant (runSession s ts) := by
  induction ts with
  | nil => intro s h; exact h
  | cons t ts ih => intro s h; exact ih _ (reqInvariant_step s t h)

/-!
Claim theorems.
-/

/-- C1 (evaluation at the failing input): after a successful turn that
detects a web application, a later successful turn whose utterance matches
no project-type keyword resets the stored `projectType` to `null` — the
spread at line 147 of `App.tsx` overwrites it before the guard at lines
148–150 (whose very shape encodes the intended first-detected-wins policy)
can protect it, contradicting the claim that a null detection leaves the
stored type unchanged. -/
theorem projectType_cleared_by_null_detection :
    (analyzeUserInput "hello there").projectType = none ∧
    (runSession initState
        [("I want a web app for selling shoes", okGateway)]).projectContext.projectType
      = some "web application" ∧
    (runSession initState
        [("I want a web app for selling shoes", okGateway),
         ("hello there", okGateway)]).projectContext.projectType = none := by
  decide

/-- C2 (counterexample): a reachable session where the first turn records
the technical term `react` and the next successful turn, mentioning only
`python`, replaces the accumulated list — `react` is gone, refuting the
claim that the accumulator never loses previously known technical terms or
clues. -/
theorem technicalTerms_lost_on_update :
    (runSession initState
        [("we use react", okGateway)]).projectContext.technicalTerms = some ["react"] ∧
    (runSession initState
        [("we use react", okGateway),
         ("we use python", okGateway)]).projectContext.technicalTerms = some ["python"] ∧
    "react" ∉ ((runSession initState
        [("we use react", okGateway),
         ("we use python", okGateway)]).projectContext.technicalTerms.getD []) := by
  decide

/-- C2 (amended): updating the `ProjectContext` stores exactly the latest
classification lists — the spread replaces the previously known technical
terms and context clues with those of the current utterance instead of
merging them. -/
theorem updateContext_stores_latest_classification (ctx : ProjectContext) (a : Analysis) :
    (updateContext ctx a).technicalTerms = some a.technicalTerms ∧
    (updateContext ctx a).contextClues = some a.contextClues := by
  cases h : optTruthy a.projectType && !optTruthy ctx.projectType <;>
    simp [updateContext, h]

/-- C3 (counterexample): at a concrete utterance carrying budget and
timeline trigger words, the extractor adds keys to the record, but the
payload posted to the gateway still holds only the prior record — the
request does not carry the requirements as updated for the turn. -/
theorem payload_requirements_not_extracted :
    ¬ ((requestPayload initState "My budget is $5000 and I need this by next month").requirements
        = extractRequirementsFromInput "My budget is $5000 and I need this by next month"
            (analyzeUserInput "My budget is $5000 and I need this by next month")
            initState.requirements) := by
  decide

/-- C3 (amended): the gateway request carries the requirements React state
from before the turn — extraction runs only after a successful response,
and the record it produces is what the turn then stores. -/
theorem payload_carries_previous_requirements (s : AppState) (input : String) :
    (requestPayload s input).requirements = s.requirements ∧
    ∀ body : String,
      (runTurn s input (fun _ => .http true body)).state.requirements
        = extractRequirementsFromInput input (analyzeUserInput input) s.requirements :=
  ⟨rfl, fun _ => rfl⟩

/-- C4: over any sequence of turns from the initial state, the observed
`sessionPhase` values form a non-decreasing sequence in the order
introduction < discovery < clarification < summary — no step of the
controller moves the phase to an earlier value. -/
theorem sessionPhase_never_regresses (ts : List Turn) :
    List.Chain' (fun a b => phaseIdx a ≤ phaseIdx b) (phaseTrace initState ts) :=
  phaseTrace_chain initState ts

/-- C5: the analyzer assigns `detectedProjectType` by scanning categories in
enumeration order with later matches overwriting earlier ones, so it
returns the last matching category; in particular the utterance
`I want a web app for selling shoes` yields `web application`. -/
theorem analyze_lastMatchingCategory_wins :
    (∀ input : String, (analyzeUserInput input).projectType = specLastMatchingType input) ∧
    (analyzeUserInput "I want a web app for selling shoes").projectType
      = some "web application" := by
  constructor
  · intro input
    exact detectProjectType_eq_lastMatch (strLower input)
  · decide

/-- C6: for every utterance, classification and prior record, every key of
the prior record is still a key of the extractor result — the record key
set never shrinks across extractor calls. -/
theorem extractRequirements_never_deletes_keys (input : String) (a : Analysis) (r : Reqs)
    (key : String) (h : key ∈ reqKeys r) :
    key ∈ reqKeys (extractRequirementsFromInput input a r) :=
  extract_keys_mono input a r key h

/-- Witness for `extractRequirements_never_deletes_keys` at a concrete
record and utterance. -/
theorem extractRequirements_never_deletes_keys_witness :
    "projectType" ∈ reqKeys [("projectType", "")] ∧
    "projectType" ∈ reqKeys (extractRequirementsFromInput "We need a booking feature"
        (analyzeUserInput "We need a booking feature") [("projectType", "")]) :=
  ⟨by decide,
    extractRequirements_never_deletes_keys "We need a booking feature"
      (analyzeUserInput "We need a booking feature") [("projectType", "")] "projectType"
      (by decide)⟩

/-- C7: whenever the gateway call fails — rejected fetch or any non-success
HTTP status such as a 500 — the turn resolves to the fixed fallback string
instead of propagating the failure; the embedding is a total function, so
no exception reaches the UI caller. -/
theorem gatewayFailure_yields_fallback (s : AppState) (input : String)
    (gw : Payload → FetchOutcome)
    (h : isFailureOutcome (gw (requestPayload s input)) = true) :
    (runTurn s input gw).response = fallbackMessage := by
  unfold runTurn
  cases hgw : gw (requestPayload s input) with
  | netError => rfl
  | http ok body =>
    rw [hgw] at h
    cases ok
    · rfl
    · simp [isFailureOutcome] at h

/-- Witness for `gatewayFailure_yields_fallback` at a concrete turn whose
gateway answers with HTTP 500. -/
theorem gatewayFailure_yields_fallback_witness :
    isFailureOutcome ((fun _ => FetchOutcome.http false "Internal Server Error")
        (requestPayload initState "Hello")) = true ∧
    (runTurn initState "Hello"
        (fun _ => FetchOutcome.http false "Internal Server Error")).response
      = fallbackMessage :=
  ⟨by decide, gatewayFailure_yields_fallback initState "Hello" _ (by decide)⟩

/-- C8: rendering the document when the requirements record maps
`targetUsers` to `shop owners` and the detected project type is
`web application` produces, for every phase and date string, a document
containing the heading `Target Users` and the body text `shop owners`. -/
theorem render_contains_targetUsers_section (phase : SessionPhase) (dateStr : String) :
    strContains (generateRequirementsDocument
        { projectType := some "web application", technicalTerms := none, contextClues := none }
        [("targetUsers", "shop owners")] phase dateStr) "Target Users" = true ∧
    strContains (generateRequirementsDocument
        { projectType := some "web application", technicalTerms := none, contextClues := none }
        [("targetUsers", "shop owners")] phase dateStr) "shop owners" = true := by
  constructor <;>
  · simp only [generateRequirementsDocument]
    apply strContains_append_left
    apply strContains_append_left
    apply strContains_append_left
    apply strContains_append_right
    decide

/-- C9: on a failed gateway call the turn leaves the requirements record,
the project context and the session phase exactly as they were before the
turn — their updates happen only on the success path. -/
theorem gatewayFailure_preserves_state (s : AppState) (input : String)
    (gw : Payload → FetchOutcome)
    (h : isFailureOutcome (gw (requestPayload s input)) = true) :
    (runTurn s input gw).state.requirements = s.requirements ∧
    (runTurn s input gw).state.projectContext = s.projectContext ∧
    (runTurn s input gw).state.sessionPhase = s.sessionPhase := by
  unfold runTurn
  cases hgw : gw (requestPayload s input) with
  | netError => exact ⟨rfl, rfl, rfl⟩
  | http ok body =>
    rw [hgw] at h
    cases ok
    · exact ⟨rfl, rfl, rfl⟩
    · simp [isFailureOutcome] at h

/-- Witness for `gatewayFailure_preserves_state` at a concrete turn whose
fetch rejects. -/
theorem gatewayFailure_preserves_state_witness :
    isFailureOutcome ((fun _ => FetchOutcome.netError)
        (requestPayload initState "My budget is $10")) = true ∧
    (runTurn initState "My budget is $10"
        (fun _ => FetchOutcome.netError)).state.requirements = initState.requirements :=
  ⟨by decide,
    (gatewayFailure_preserves_state initState "My budget is $10" _ (by decide)).1⟩

/-- C10: in every reachable state the requirements record still holds the
key `projectType` with pairwise-distinct keys, so its key count is never
zero (the download control is never disabled by emptiness) and the
discovery-to-clarification threshold `count > 5` entails at least five keys
besides the initial `projectType` entry. -/
theorem projectTypeKey_always_present (ts : List Turn) :
    "projectType" ∈ reqKeys (runSession initState ts).requirements ∧
    (reqKeys (runSession initState ts).requirements).Nodup ∧
    (reqKeys (runSession initState ts).requirements).length ≠ 0 ∧
    ((reqKeys (runSession initState ts).requirements).length > 5 →
      5 ≤ ((reqKeys (runSession initState ts).requirements).erase "projectType").length) := by
  have hinv : reqInvariant (runSession initState ts) :=
    reqInvariant_runSession ts initState ⟨by decide, by decide⟩
  have hmem := hinv.1
  have hlenpos : 0 < (reqKeys (runSession initState ts).requirements).length :=
    List.length_pos.mpr (List.ne_nil_of_mem hmem)
  refine ⟨hmem, hinv.2, by omega, ?_⟩
  intro hgt
  have herase := List.length_erase_of_mem hmem
  omega

/-- Witness for `projectTypeKey_always_present` at the empty session. -/
theorem projectTypeKey_always_present_witness :
    "projectType" ∈ reqKeys (runSession initState []).requirements :=
  (projectTypeKey_always_present []).1
